import Mathlib

/-!
Verification of the ImageEditor transform pipeline (`src/src-tauri/src/lib.rs`).

Shallow embedding conventions:
* `f32`/`f64` arithmetic is idealized as exact rational arithmetic (`ℚ`);
  the rounding policies of the source (`+ 0.5` then `as u32` truncation,
  `f32::round` / `f64::round` half-away-from-zero) are modelled exactly on `ℚ`.
* Rust `as u32` casts from floats truncate toward zero and saturate at the
  type boundaries; this is `ratToU32` / `ratToU32Round`.
* A decoded raster is an `Image`: width, height and a total pixel function.
* The `image` crate (version 0.24, the decoder/encoder collaborator) supplies
  `crop_imm` and `DynamicImage::resize`; their geometry logic is embedded from
  the crate source (`crop_imm`, `resize_dimensions`, `resizeDims`).  The
  Triangle resampling kernel only produces pixel values, never dimensions, so
  it is carried as an explicit `resample` parameter.
* File-system effects are represented by their results: a decode is an
  `Except String Image`, a directory listing is a `List DirEntry`.
-/

namespace ImageEditor

/-- Rust `str::to_lowercase`, modelled as a character-wise lowercase map
(adequate for the pure-ASCII extension strings it is applied to). -/
def lowerStr (s : String) : String := String.mk (s.data.map Char.toLower)

/-- Largest value of Rust's `u32`. -/
def u32Max : ℕ := 2 ^ 32 - 1

/-- Rust `as u32` cast applied to a (nonnegative-or-negative) rational value:
truncation toward zero, saturating at `0` and `u32::MAX`.  For negative inputs
`Int.toNat` already yields `0`, matching the saturating cast. -/
def ratToU32 (q : ℚ) : ℕ :=
  min (Int.toNat ⌊q⌋) u32Max

/-- Rust `f32::round` / `f64::round`: round to the nearest integer, ties away
from zero. -/
def rustRound (q : ℚ) : ℤ :=
  if q < 0 then ⌈q - 1/2⌉ else ⌊q + 1/2⌋

/-- Rust `.round() as u32`: round half away from zero, then saturating cast. -/
def ratToU32Round (q : ℚ) : ℕ :=
  min (Int.toNat (rustRound q)) u32Max

/-- An integer pixel rectangle, the result of crop normalization. -/
structure PixelRect where
  x : ℕ
  y : ℕ
  width : ℕ
  height : ℕ
deriving DecidableEq

/-- One fractional coordinate converted to pixels, from `crop_image`
(lib.rs lines 161-164): `(f * dim as f32 + 0.5) as u32`. -/
def cropRound (f : ℚ) (d : ℕ) : ℕ :=
  ratToU32 (f * d + 1/2)

/-- The crop normalization of `crop_image` (lib.rs lines 161-180): convert the
fractional rect to pixels, then clamp width/height — never the origin — so the
right/bottom edges do not pass the image edges.  The subtractions are the
source's `u32` subtractions, which under the in-range precondition never
underflow (see `crop_origin_within_bounds`). -/
def normalizeCrop (W H : ℕ) (x y w h : ℚ) : PixelRect :=
  let crop_x := cropRound x W
  let crop_y := cropRound y H
  let crop_width := cropRound w W
  let crop_height := cropRound h H
  let crop_right := crop_x + crop_width
  let crop_bottom := crop_y + crop_height
  let final_crop_width := if crop_right > W then W - crop_x else crop_width
  let final_crop_height := if crop_bottom > H then H - crop_y else crop_height
  ⟨crop_x, crop_y, final_crop_width, final_crop_height⟩

/-- A decoded raster image: dimensions plus a total pixel function
(pixel value at column `i`, row `j`). -/
@[ext] structure Image where
  width : ℕ
  height : ℕ
  pix : ℕ → ℕ → ℕ

/-- `DynamicImage::crop_imm` of the image crate: clamp the requested rectangle
to the image bounds, then take that sub-raster. -/
def crop_imm (img : Image) (x y w h : ℕ) : Image :=
  let cx := min x img.width
  let cy := min y img.height
  let ch := min h (img.height - cy)
  let cw := min w (img.width - cx)
  ⟨cw, ch, fun i j => img.pix (cx + i) (cy + j)⟩

/-- The image transform performed by `crop_image` (lib.rs lines 158-183) on the
decoded image: normalize the fractional rect, then `crop_imm`. -/
def cropImage (img : Image) (x y w h : ℚ) : Image :=
  let r := normalizeCrop img.width img.height x y w h
  crop_imm img r.x r.y r.width r.height

/-- `image::math::utils::resize_dimensions` (image crate 0.24): the output
dimensions of an aspect-ratio-preserving resize toward the bounding box
`(nwidth, nheight)`.  The crate computes the two scale candidates in `f64`,
takes `min` (`fill = false`) or `max` (`fill = true`), rounds, clamps each
result to at least 1, and guards against `u32` overflow. -/
def resize_dimensions (width height nwidth nheight : ℕ) (fill : Bool) : ℕ × ℕ :=
  let wscale : ℚ := nwidth / width
  let hscale : ℚ := nheight / height
  let sc := if fill then max wscale hscale else min wscale hscale
  let nw := max (Int.toNat (rustRound (width * sc))) 1
  let nh := max (Int.toNat (rustRound (height * sc))) 1
  if nw > u32Max then
    let sc2 : ℚ := u32Max / width
    (u32Max, max (Int.toNat (rustRound (height * sc2))) 1)
  else if nh > u32Max then
    let sc2 : ℚ := u32Max / height
    (max (Int.toNat (rustRound (width * sc2))) 1, u32Max)
  else
    (nw, nh)

/-- Dimensions produced by `DynamicImage::resize` (the aspect-preserving
variant used by `resize_image`, `resize_image_from_data` and `save_as`):
identical target dimensions return the image unchanged, otherwise the raster
is scaled to `resize_dimensions` with `fill = false`. -/
def resizeDims (width height nwidth nheight : ℕ) : ℕ × ℕ :=
  if nwidth = width ∧ nheight = height then (width, height)
  else resize_dimensions width height nwidth nheight false

/-- `DynamicImage::resize` on a decoded image.  `resample` is the Triangle
resampling kernel: it yields pixel values of the scaled raster and is carried
abstractly since no dimension depends on it. -/
def resizeImg (resample : Image → ℕ → ℕ → ℕ → ℕ → ℕ) (img : Image)
    (nwidth nheight : ℕ) : Image :=
  if nwidth = img.width ∧ nheight = img.height then img
  else
    let d := resize_dimensions img.width img.height nwidth nheight false
    ⟨d.1, d.2, resample img d.1 d.2⟩

/-- `resize_image` (lib.rs lines 78-93) after the open/decode stage: the
decode result is transformed by `DynamicImage::resize`; no target-dimension
validation is performed anywhere in the command. -/
def resize_image (resample : Image → ℕ → ℕ → ℕ → ℕ → ℕ)
    (decoded : Except String Image) (width height : ℕ) : Except String Image :=
  Except.map (fun img => resizeImg resample img width height) decoded

/-- `resize_image_from_data` (lib.rs lines 96-119) after the decode stage:
identical transform core as `resize_image` (the PNG encoding of the result is
the encoder collaborator's job). -/
def resize_image_from_data (resample : Image → ℕ → ℕ → ℕ → ℕ → ℕ)
    (decoded : Except String Image) (width height : ℕ) : Except String Image :=
  Except.map (fun img => resizeImg resample img width height) decoded

/-- The `processed_img` computation of `save_as` (lib.rs lines 200-232):
lowercase the destination extension; for `"ico"` with a side above 256, scale
by `256 / max side` (computed through the `width > height` branch of the
source) and resize; otherwise pass the decoded image through unchanged. -/
def save_as_processed_img (resample : Image → ℕ → ℕ → ℕ → ℕ → ℕ)
    (img : Image) (ext : String) : Image :=
  if lowerStr ext = "ico" then
    if img.width > 256 ∨ img.height > 256 then
      let scale_factor : ℚ :=
        if img.width > img.height then 256 / (img.width : ℚ)
        else 256 / (img.height : ℚ)
      let new_width := ratToU32Round (img.width * scale_factor)
      let new_height := ratToU32Round (img.height * scale_factor)
      resizeImg resample img new_width new_height
    else img
  else img

/-- The DTO returned by `list_images` / `get_image_info`. -/
structure ImageInfo where
  path : String
  name : String
  width : ℕ
  height : ℕ
  size : ℕ
deriving DecidableEq

/-- One directory entry as observed by `list_images`: `metadata = none` models
a failing `fs::metadata` call, `decoded = none` models a failing
`ImageReader::open` or `decode` (both are skipped by the source with
`continue`). -/
structure DirEntry where
  name : String
  path : String
  isFile : Bool
  extn : Option String
  metadata : Option ℕ
  decoded : Option (ℕ × ℕ)

/-- The extension whitelist of `list_images` (lib.rs line 43). -/
def supportedExts : List String := ["jpg", "jpeg", "png", "gif", "bmp"]

/-- Whether `list_images` considers an entry at all: a file whose extension,
lowercased, is on the whitelist. -/
def consideredEntry (e : DirEntry) : Bool :=
  e.isFile && (match e.extn with
    | some x => supportedExts.contains (lowerStr x)
    | none => false)

/-- The `ImageInfo` a considered, fully readable entry contributes. -/
def entryInfo (e : DirEntry) : Option ImageInfo :=
  if consideredEntry e then
    match e.metadata, e.decoded with
    | some size, some wh => some ⟨e.path, e.name, wh.1, wh.2, size⟩
    | _, _ => none
  else none

/-- `list_images` (lib.rs lines 25-75) over the entries of a readable
directory.  A failing `fs::metadata` on a considered file propagates with `?`
(line 45) and aborts the whole enumeration; a failing open/decode hits the
`continue` arms (lines 64, 67) and only skips the file.  The source appends
the OS error text to the metadata message; the model keeps the fixed prefix. -/
def list_images : List DirEntry → Except String (List ImageInfo)
  | [] => .ok []
  | e :: rest =>
    if e.isFile then
      match e.extn with
      | some ex =>
        if supportedExts.contains (lowerStr ex) then
          match e.metadata with
          | none => .error "Failed to get metadata"
          | some size =>
            match e.decoded with
            | none => list_images rest
            | some wh =>
              match list_images rest with
              | .error msg => .error msg
              | .ok tail => .ok (⟨e.path, e.name, wh.1, wh.2, size⟩ :: tail)
        else list_images rest
      | none => list_images rest
    else list_images rest

/-- A trivial resampling kernel, used to instantiate witness statements. -/
def zeroResample : Image → ℕ → ℕ → ℕ → ℕ → ℕ := fun _ _ _ _ _ => 0

/-- A monochrome test image of the given dimensions. -/
def constImage (w h : ℕ) : Image := ⟨w, h, fun _ _ => 0⟩

/-- A decodable entry whose metadata read succeeds. -/
def goodEntry : DirEntry := ⟨"a.png", "/imgs/a.png", true, some "png", some 100, some (3, 4)⟩

/-- A corrupt entry: metadata reads fine, decoding fails. -/
def corruptEntry : DirEntry := ⟨"c.png", "/imgs/c.png", true, some "png", some 50, none⟩

/-- A non-image entry: unsupported extension, never examined further. -/
def textEntry : DirEntry := ⟨"t.txt", "/imgs/t.txt", true, some "txt", none, none⟩

/-- A bad entry whose `fs::metadata` call fails. -/
def metaFailEntry : DirEntry := ⟨"b.png", "/imgs/b.png", true, some "png", none, none⟩

/-! ### Basic rounding lemmas -/

theorem floor_add_half_natCast (d : ℕ) : ⌊(d : ℚ) + 1/2⌋ = d := by
  rw [Int.floor_eq_iff]
  constructor
  · push_cast
    linarith
  · push_cast
    linarith

theorem floor_scaled_le (f : ℚ) (d : ℕ) (h1 : f ≤ 1) : ⌊f * d + 1/2⌋ ≤ (d : ℤ) := by
  have hfd : f * d ≤ (d : ℚ) := by
    calc f * d ≤ 1 * d := by
          apply mul_le_mul_of_nonneg_right h1
          positivity
    _ = d := one_mul _
  calc ⌊f * (d : ℚ) + 1/2⌋ ≤ ⌊(d : ℚ) + 1/2⌋ := Int.floor_le_floor (by linarith)
    _ = d := floor_add_half_natCast d

theorem cropRound_le_dim (f : ℚ) (d : ℕ) (h1 : f ≤ 1) : cropRound f d ≤ d := by
  unfold cropRound ratToU32
  refine le_trans (min_le_left _ _) ?_
  exact Int.toNat_le.mpr (floor_scaled_le f d h1)

theorem cropRound_eq_floor (f : ℚ) (d : ℕ) (h1 : f ≤ 1) (hd : d ≤ u32Max) :
    cropRound f d = Int.toNat ⌊f * d + 1/2⌋ := by
  unfold cropRound ratToU32
  exact min_eq_left (le_trans (Int.toNat_le.mpr (floor_scaled_le f d h1)) hd)

theorem cropRound_cast (f : ℚ) (d : ℕ) (h0 : 0 ≤ f) (h1 : f ≤ 1) (hd : d ≤ u32Max) :
    ((cropRound f d : ℕ) : ℤ) = ⌊f * d + 1/2⌋ := by
  rw [cropRound_eq_floor f d h1 hd]
  apply Int.toNat_of_nonneg
  apply Int.le_floor.mpr
  push_cast
  have : 0 ≤ f * d := mul_nonneg h0 (by positivity)
  linarith

theorem cropRound_zero_frac (d : ℕ) : cropRound 0 d = 0 := by
  unfold cropRound ratToU32
  have h : ⌊(0 : ℚ) * d + 1/2⌋ = 0 := by
    apply Int.floor_eq_iff.mpr
    norm_num
  rw [h]
  simp

theorem cropRound_one_frac (d : ℕ) (hd : d ≤ u32Max) : cropRound 1 d = d := by
  unfold cropRound ratToU32
  rw [one_mul, floor_add_half_natCast]
  simp only [Int.toNat_natCast]
  exact min_eq_left hd

theorem cropRound_val (f : ℚ) (d k : ℕ) (hk : ⌊f * d + 1/2⌋ = (k : ℤ))
    (hcap : k ≤ 2 ^ 32 - 1) : cropRound f d = k := by
  unfold cropRound ratToU32 u32Max
  rw [hk, Int.toNat_natCast]
  exact min_eq_left hcap

theorem cropRound_half_1000 : cropRound (1/2) 1000 = 500 :=
  cropRound_val _ _ _ (by norm_num) (by norm_num)

theorem cropRound_three_fifths_1000 : cropRound (3/5) 1000 = 600 :=
  cropRound_val _ _ _ (by norm_num) (by norm_num)

theorem cropRound_one_500 : cropRound 1 500 = 500 :=
  cropRound_val _ _ _ (by norm_num) (by norm_num)

theorem cropRound_half_10 : cropRound (1/2) 10 = 5 :=
  cropRound_val _ _ _ (by norm_num) (by norm_num)

theorem cropRound_one_10 : cropRound 1 10 = 10 :=
  cropRound_val _ _ _ (by norm_num) (by norm_num)

theorem normalizeCrop_concrete :
    normalizeCrop 1000 500 (1/2) 0 (3/5) 1 = ⟨500, 0, 500, 500⟩ := by
  simp only [normalizeCrop, cropRound_half_1000, cropRound_zero_frac,
    cropRound_three_fifths_1000, cropRound_one_500]
  norm_num

theorem cropImage_concrete :
    (cropImage (constImage 1000 500) (1/2) 0 (3/5) 1).width = 500 ∧
    (cropImage (constImage 1000 500) (1/2) 0 (3/5) 1).height = 500 := by
  simp only [cropImage, constImage]
  rw [normalizeCrop_concrete]
  simp only [crop_imm]
  norm_num

theorem normalizeCrop_full (W H : ℕ) (hW : W ≤ u32Max) (hH : H ≤ u32Max) :
    normalizeCrop W H 0 0 1 1 = ⟨0, 0, W, H⟩ := by
  simp only [normalizeCrop, cropRound_zero_frac, cropRound_one_frac W hW,
    cropRound_one_frac H hH, Nat.zero_add, gt_iff_lt, lt_irrefl, if_false]

/-! ### Claim theorems: crop geometry -/

/-- Claim C1: for in-range fractional inputs, the normalized crop rectangle
lies within the image bounds: `x + width ≤ W` and `y + height ≤ H`. -/
theorem crop_rect_in_bounds (W H : ℕ) (x y w h : ℚ)
    (hx0 : 0 ≤ x) (hx1 : x ≤ 1) (hy0 : 0 ≤ y) (hy1 : y ≤ 1)
    (hw0 : 0 ≤ w) (hw1 : w ≤ 1) (hh0 : 0 ≤ h) (hh1 : h ≤ 1) :
    (normalizeCrop W H x y w h).x + (normalizeCrop W H x y w h).width ≤ W ∧
    (normalizeCrop W H x y w h).y + (normalizeCrop W H x y w h).height ≤ H := by
  have hxW : cropRound x W ≤ W := cropRound_le_dim x W hx1
  have hyH : cropRound y H ≤ H := cropRound_le_dim y H hy1
  simp only [normalizeCrop]
  constructor
  · split
    · omega
    · next hc => omega
  · split
    · omega
    · next hc => omega

/-- Claim C1 witness at a concrete in-range input. -/
theorem crop_rect_in_bounds_witness :
    (0 ≤ (1/2 : ℚ) ∧ (1/2 : ℚ) ≤ 1 ∧ 0 ≤ (3/5 : ℚ) ∧ (3/5 : ℚ) ≤ 1) ∧
    (normalizeCrop 1000 500 (1/2) 0 (3/5) 1).x +
      (normalizeCrop 1000 500 (1/2) 0 (3/5) 1).width ≤ 1000 ∧
    (normalizeCrop 1000 500 (1/2) 0 (3/5) 1).y +
      (normalizeCrop 1000 500 (1/2) 0 (3/5) 1).height ≤ 500 :=
  ⟨by norm_num,
    (crop_rect_in_bounds 1000 500 (1/2) 0 (3/5) 1 (by norm_num) (by norm_num)
      (by norm_num) (by norm_num) (by norm_num) (by norm_num) (by norm_num)
      (by norm_num)).1,
    (crop_rect_in_bounds 1000 500 (1/2) 0 (3/5) 1 (by norm_num) (by norm_num)
      (by norm_num) (by norm_num) (by norm_num) (by norm_num) (by norm_num)
      (by norm_num)).2⟩

/-- Claim C10: for in-range fractional inputs, the rounded origin never
exceeds the source dimensions, so the `u32` subtractions
`original_width - crop_x` and `original_height - crop_y` in `crop_image`
cannot underflow. -/
theorem crop_origin_within_bounds (W H : ℕ) (x y w h : ℚ)
    (hx0 : 0 ≤ x) (hx1 : x ≤ 1) (hy0 : 0 ≤ y) (hy1 : y ≤ 1)
    (hw0 : 0 ≤ w) (hw1 : w ≤ 1) (hh0 : 0 ≤ h) (hh1 : h ≤ 1) :
    (normalizeCrop W H x y w h).x ≤ W ∧ (normalizeCrop W H x y w h).y ≤ H :=
  ⟨cropRound_le_dim x W hx1, cropRound_le_dim y H hy1⟩

/-- Claim C10 witness at a concrete in-range input. -/
theorem crop_origin_within_bounds_witness :
    (0 ≤ (1 : ℚ) ∧ (1 : ℚ) ≤ 1) ∧
    (normalizeCrop 1000 500 1 1 1 1).x ≤ 1000 ∧
    (normalizeCrop 1000 500 1 1 1 1).y ≤ 500 :=
  ⟨by norm_num,
    (crop_origin_within_bounds 1000 500 1 1 1 1 (by norm_num) (by norm_num)
      (by norm_num) (by norm_num) (by norm_num) (by norm_num) (by norm_num)
      (by norm_num)).1,
    (crop_origin_within_bounds 1000 500 1 1 1 1 (by norm_num) (by norm_num)
      (by norm_num) (by norm_num) (by norm_num) (by norm_num) (by norm_num)
      (by norm_num)).2⟩

/-- Claim C2: on overflow of the rounded rectangle, `crop_image` clamps the
width to `W - pixelX` (resp. `H - pixelY`) and never moves the origin; in the
concrete 1000x500 scenario `(x=1/2, y=0, w=3/5, h=1)` the width is clamped
from 600 to 500 and the cropped image is 500x500. -/
theorem crop_clamp_policy :
    (∀ (W H : ℕ) (x y w h : ℚ),
      (normalizeCrop W H x y w h).x = cropRound x W ∧
      (normalizeCrop W H x y w h).y = cropRound y H ∧
      (cropRound x W + cropRound w W > W →
        (normalizeCrop W H x y w h).width = W - cropRound x W) ∧
      (cropRound y H + cropRound h H > H →
        (normalizeCrop W H x y w h).height = H - cropRound y H)) ∧
    cropRound (3/5) 1000 = 600 ∧
    normalizeCrop 1000 500 (1/2) 0 (3/5) 1 = ⟨500, 0, 500, 500⟩ ∧
    (cropImage (constImage 1000 500) (1/2) 0 (3/5) 1).width = 500 ∧
    (cropImage (constImage 1000 500) (1/2) 0 (3/5) 1).height = 500 := by
  refine ⟨fun W H x y w h => ⟨rfl, rfl, ?_, ?_⟩, cropRound_three_fifths_1000,
    normalizeCrop_concrete, cropImage_concrete.1, cropImage_concrete.2⟩
  · intro hc
    simp only [normalizeCrop, if_pos hc]
  · intro hc
    simp only [normalizeCrop, if_pos hc]

/-- Claim C2 witness: a concrete overflowing request takes the clamping
branch. -/
theorem crop_clamp_policy_witness :
    cropRound (1/2) 10 + cropRound 1 10 > 10 ∧
    (normalizeCrop 10 10 (1/2) (1/2) 1 1).width = 10 - cropRound (1/2) 10 :=
  ⟨by rw [cropRound_half_10, cropRound_one_10]; omega,
    (crop_clamp_policy.1 10 10 (1/2) (1/2) 1 1).2.2.1
      (by rw [cropRound_half_10, cropRound_one_10]; omega)⟩

/-- Claim C4: crop normalization converts each fractional coordinate with
round-half-up semantics — scale, add one half, truncate. -/
theorem crop_round_half_up (W H : ℕ) (x y w h : ℚ)
    (hx0 : 0 ≤ x) (hx1 : x ≤ 1) (hy0 : 0 ≤ y) (hy1 : y ≤ 1)
    (hw0 : 0 ≤ w) (hw1 : w ≤ 1) (hh0 : 0 ≤ h) (hh1 : h ≤ 1)
    (hW : W ≤ u32Max) (hH : H ≤ u32Max) :
    ((normalizeCrop W H x y w h).x : ℤ) = ⌊x * W + 1/2⌋ ∧
    ((normalizeCrop W H x y w h).y : ℤ) = ⌊y * H + 1/2⌋ ∧
    ((cropRound w W : ℕ) : ℤ) = ⌊w * W + 1/2⌋ ∧
    ((cropRound h H : ℕ) : ℤ) = ⌊h * H + 1/2⌋ :=
  ⟨cropRound_cast x W hx0 hx1 hW, cropRound_cast y H hy0 hy1 hH,
    cropRound_cast w W hw0 hw1 hW, cropRound_cast h H hh0 hh1 hH⟩

/-- Claim C4 witness at a concrete in-range input. -/
theorem crop_round_half_up_witness :
    ((0 ≤ (1/2 : ℚ) ∧ (1/2 : ℚ) ≤ 1) ∧ 1000 ≤ u32Max ∧ 500 ≤ u32Max) ∧
    ((normalizeCrop 1000 500 (1/2) 0 (3/5) 1).x : ℤ) = ⌊(1/2 : ℚ) * 1000 + 1/2⌋ ∧
    ((cropRound (3/5) 1000 : ℕ) : ℤ) = ⌊(3/5 : ℚ) * 1000 + 1/2⌋ :=
  ⟨⟨by norm_num, by decide, by decide⟩,
    (crop_round_half_up 1000 500 (1/2) 0 (3/5) 1 (by norm_num) (by norm_num)
      (by norm_num) (by norm_num) (by norm_num) (by norm_num) (by norm_num)
      (by norm_num) (by decide) (by decide)).1,
    (crop_round_half_up 1000 500 (1/2) 0 (3/5) 1 (by norm_num) (by norm_num)
      (by norm_num) (by norm_num) (by norm_num) (by norm_num) (by norm_num)
      (by norm_num) (by decide) (by decide)).2.2.1⟩

/-- Claim C8: cropping with the whole-image fractional rect `(0,0,1,1)` is the
identity on the decoded raster — same dimensions, pixel-identical content. -/
theorem crop_full_rect_identity (img : Image)
    (hW : img.width ≤ u32Max) (hH : img.height ≤ u32Max) :
    cropImage img 0 0 1 1 = img := by
  obtain ⟨W, H, p⟩ := img
  simp only [Image.width] at hW
  simp only [Image.height] at hH
  simp only [cropImage, Image.width, Image.height, normalizeCrop_full W H hW hH, crop_imm]
  simp

/-- Claim C8 witness on a concrete image. -/
theorem crop_full_rect_identity_witness :
    ((constImage 2 3).width ≤ u32Max ∧ (constImage 2 3).height ≤ u32Max) ∧
    cropImage (constImage 2 3) 0 0 1 1 = constImage 2 3 :=
  ⟨⟨by decide, by decide⟩,
    crop_full_rect_identity (constImage 2 3) (by decide) (by decide)⟩

/-! ### Resize lemmas -/

theorem rustRound_nonneg_eq (q : ℚ) (h0 : 0 ≤ q) : rustRound q = ⌊q + 1/2⌋ := by
  unfold rustRound
  rw [if_neg (not_lt.mpr h0)]

theorem toNat_rustRound_le (q : ℚ) (n : ℕ) (hq : q ≤ n) :
    Int.toNat (rustRound q) ≤ n := by
  unfold rustRound
  split
  · next hneg =>
    have hc : ⌈q - 1/2⌉ ≤ (0 : ℤ) := by
      apply Int.ceil_le.mpr
      push_cast
      linarith
    omega
  · apply Int.toNat_le.mpr
    calc ⌊q + 1/2⌋ ≤ ⌊(n : ℚ) + 1/2⌋ := Int.floor_le_floor (by linarith)
      _ = n := floor_add_half_natCast n

theorem toNat_rustRound_natCast (n : ℕ) : Int.toNat (rustRound (n : ℚ)) = n := by
  rw [rustRound_nonneg_eq _ (by positivity), floor_add_half_natCast, Int.toNat_natCast]

theorem resize_dimensions_le (w h nw nh b c : ℕ) (hw : 0 < w) (hh : 0 < h)
    (hnw : nw ≤ b) (hnh : nh ≤ c) (hb : 1 ≤ b) (hc : 1 ≤ c)
    (hbcap : b ≤ u32Max) (hccap : c ≤ u32Max) :
    (resize_dimensions w h nw nh false).1 ≤ b ∧
    (resize_dimensions w h nw nh false).2 ≤ c := by
  have hw0 : (0 : ℚ) < w := by exact_mod_cast hw
  have hh0 : (0 : ℚ) < h := by exact_mod_cast hh
  have h1 : (w : ℚ) * min ((nw : ℚ)/w) ((nh : ℚ)/h) ≤ nw := by
    calc (w : ℚ) * min ((nw : ℚ)/w) ((nh : ℚ)/h)
        ≤ (w : ℚ) * ((nw : ℚ)/w) := by
          apply mul_le_mul_of_nonneg_left (min_le_left _ _) (by positivity)
      _ = nw := by field_simp
  have h2 : (h : ℚ) * min ((nw : ℚ)/w) ((nh : ℚ)/h) ≤ nh := by
    calc (h : ℚ) * min ((nw : ℚ)/w) ((nh : ℚ)/h)
        ≤ (h : ℚ) * ((nh : ℚ)/h) := by
          apply mul_le_mul_of_nonneg_left (min_le_right _ _) (by positivity)
      _ = nh := by field_simp
  have hA : max (Int.toNat (rustRound ((w : ℚ) * min ((nw : ℚ)/w) ((nh : ℚ)/h)))) 1 ≤ b :=
    max_le (le_trans (toNat_rustRound_le _ nw h1) hnw) hb
  have hB : max (Int.toNat (rustRound ((h : ℚ) * min ((nw : ℚ)/w) ((nh : ℚ)/h)))) 1 ≤ c :=
    max_le (le_trans (toNat_rustRound_le _ nh h2) hnh) hc
  simp only [resize_dimensions, Bool.false_eq_true, if_false]
  rw [if_neg (not_lt.mpr (le_trans hA hbcap)), if_neg (not_lt.mpr (le_trans hB hccap))]
  exact ⟨hA, hB⟩

theorem resize_dimensions_exact (w h W H : ℕ) (hw : 0 < w) (hh : 0 < h)
    (hW : 0 < W) (hH : 0 < H) (hWcap : W ≤ u32Max) (hHcap : H ≤ u32Max)
    (hasp : W * h = H * w) :
    resize_dimensions w h W H false = (W, H) := by
  have hw0 : (0 : ℚ) < w := by exact_mod_cast hw
  have hh0 : (0 : ℚ) < h := by exact_mod_cast hh
  have heq : (W : ℚ)/w = (H : ℚ)/h := by
    rw [div_eq_div_iff (by positivity) (by positivity)]
    exact_mod_cast hasp
  have hmin : min ((W : ℚ)/w) ((H : ℚ)/h) = (W : ℚ)/w := by
    rw [heq, min_self]
  have hwv : (w : ℚ) * ((W : ℚ)/w) = (W : ℚ) := by field_simp
  have hhv : (h : ℚ) * ((W : ℚ)/w) = (H : ℚ) := by
    rw [heq]
    field_simp
  simp only [resize_dimensions, Bool.false_eq_true, if_false, hmin, hwv, hhv,
    toNat_rustRound_natCast]
  rw [max_eq_left hW, max_eq_left hH]
  rw [if_neg (not_lt.mpr hWcap), if_neg (not_lt.mpr hHcap)]

theorem resizeDims_le (w h W H : ℕ) (hw : 0 < w) (hh : 0 < h)
    (hW : 0 < W) (hH : 0 < H) (hWcap : W ≤ u32Max) (hHcap : H ≤ u32Max) :
    (resizeDims w h W H).1 ≤ W ∧ (resizeDims w h W H).2 ≤ H := by
  unfold resizeDims
  split
  · next heq =>
    rw [heq.1, heq.2]
    exact ⟨le_rfl, le_rfl⟩
  · exact resize_dimensions_le w h W H W H hw hh le_rfl le_rfl hW hH hWcap hHcap

theorem resizeDims_exact (w h W H : ℕ) (hw : 0 < w) (hh : 0 < h)
    (hW : 0 < W) (hH : 0 < H) (hWcap : W ≤ u32Max) (hHcap : H ≤ u32Max)
    (hasp : W * h = H * w) :
    resizeDims w h W H = (W, H) := by
  unfold resizeDims
  split
  · next heq =>
    rw [heq.1, heq.2]
  · exact resize_dimensions_exact w h W H hw hh hW hH hWcap hHcap hasp

theorem resizeDims_pos (w h nw nh : ℕ) (hw : 0 < w) (hh : 0 < h) :
    0 < (resizeDims w h nw nh).1 ∧ 0 < (resizeDims w h nw nh).2 := by
  have hu : 0 < u32Max := by norm_num [u32Max]
  have hm : ∀ k : ℕ, 0 < max k 1 := fun k => lt_of_lt_of_le one_pos (le_max_right k 1)
  simp only [resizeDims, resize_dimensions, Bool.false_eq_true, if_false]
  split
  · exact ⟨hw, hh⟩
  · split
    · exact ⟨hu, hm _⟩
    · split
      · exact ⟨hm _, hu⟩
      · exact ⟨hm _, hm _⟩

theorem resizeImg_dims (resample : Image → ℕ → ℕ → ℕ → ℕ → ℕ) (img : Image)
    (nw nh : ℕ) :
    (resizeImg resample img nw nh).width = (resizeDims img.width img.height nw nh).1 ∧
    (resizeImg resample img nw nh).height = (resizeDims img.width img.height nw nh).2 := by
  by_cases hc : nw = img.width ∧ nh = img.height
  · simp only [resizeImg, resizeDims, if_pos hc]
    constructor <;> trivial
  · simp only [resizeImg, resizeDims, if_neg hc]
    constructor <;> trivial

theorem resizeDims_100_100_50_25 : resizeDims 100 100 50 25 = (25, 25) := by
  simp only [resizeDims, resize_dimensions]
  norm_num [min_def, max_def, rustRound, u32Max]
  omega

theorem resizeDims_100_100_0_5 : resizeDims 100 100 0 5 = (1, 1) := by
  simp only [resizeDims, resize_dimensions]
  norm_num [min_def, max_def, rustRound, u32Max]

/-! ### Claim theorems: resize -/

/-- Claim C3 counterexample: a 100x100 image resized to the target `(50, 25)`
comes out 25x25, not `(50, 25)` — `DynamicImage::resize` preserves the aspect
ratio instead of matching the requested dimensions exactly. -/
theorem resize_not_exact_counterexample :
    (resizeImg zeroResample (constImage 100 100) 50 25).width = 25 ∧
    (resizeImg zeroResample (constImage 100 100) 50 25).height = 25 ∧
    (resizeImg zeroResample (constImage 100 100) 50 25).width ≠ 50 := by
  have h1 : (resizeImg zeroResample (constImage 100 100) 50 25).width = 25 := by
    rw [(resizeImg_dims zeroResample (constImage 100 100) 50 25).1]
    show (resizeDims 100 100 50 25).1 = 25
    rw [resizeDims_100_100_50_25]
  have h2 : (resizeImg zeroResample (constImage 100 100) 50 25).height = 25 := by
    rw [(resizeImg_dims zeroResample (constImage 100 100) 50 25).2]
    show (resizeDims 100 100 50 25).2 = 25
    rw [resizeDims_100_100_50_25]
  exact ⟨h1, h2, by rw [h1]; omega⟩

/-- Claim C3 (amended): resizing to positive targets `(W, H)` produces an
image that fits within the `W x H` box, with each output dimension at least 1;
if the target box has the source's aspect ratio (`W * h = H * w`) then the
dimensions are exactly `(W, H)`.  (Only this direction holds: rounding can
coincidentally produce the target dimensions for a non-matching aspect.) -/
theorem resize_fits_target (resample : Image → ℕ → ℕ → ℕ → ℕ → ℕ) (img : Image)
    (W H : ℕ) (hw : 0 < img.width) (hh : 0 < img.height) (hW : 0 < W)
    (hH : 0 < H) (hWcap : W ≤ u32Max) (hHcap : H ≤ u32Max) :
    ((resizeImg resample img W H).width ≤ W ∧
      (resizeImg resample img W H).height ≤ H ∧
      1 ≤ (resizeImg resample img W H).width ∧
      1 ≤ (resizeImg resample img W H).height) ∧
    (W * img.height = H * img.width →
      (resizeImg resample img W H).width = W ∧
      (resizeImg resample img W H).height = H) := by
  obtain ⟨hdw, hdh⟩ := resizeImg_dims resample img W H
  constructor
  · rw [hdw, hdh]
    obtain ⟨hle1, hle2⟩ := resizeDims_le img.width img.height W H hw hh hW hH hWcap hHcap
    obtain ⟨hp1, hp2⟩ := resizeDims_pos img.width img.height W H hw hh
    exact ⟨hle1, hle2, hp1, hp2⟩
  · intro hasp
    rw [hdw, hdh,
      resizeDims_exact img.width img.height W H hw hh hW hH hWcap hHcap hasp]
    exact ⟨rfl, rfl⟩

/-- Claim C3 witness at a concrete input. -/
theorem resize_fits_target_witness :
    (0 < (constImage 100 100).width ∧ 0 < (constImage 100 100).height ∧
      0 < 50 ∧ 0 < 25 ∧ 50 ≤ u32Max ∧ 25 ≤ u32Max) ∧
    (resizeImg zeroResample (constImage 100 100) 50 25).width ≤ 50 ∧
    (resizeImg zeroResample (constImage 100 100) 50 25).height ≤ 25 ∧
    1 ≤ (resizeImg zeroResample (constImage 100 100) 50 25).width ∧
    1 ≤ (resizeImg zeroResample (constImage 100 100) 50 25).height :=
  ⟨⟨by decide, by decide, by decide, by decide, by decide, by decide⟩,
    (resize_fits_target zeroResample (constImage 100 100) 50 25 (by decide)
      (by decide) (by decide) (by decide) (by decide) (by decide)).1⟩

/-- Claim C7 counterexample: a resize request with target width 0 is not
rejected: the command succeeds and produces a 1x1 image (the crate clamps each
computed dimension to at least 1).  No `InvalidDimensions` error exists
anywhere in the pipeline. -/
theorem resize_zero_accepted :
    resize_image zeroResample (.ok (constImage 100 100)) 0 5
      = .ok (resizeImg zeroResample (constImage 100 100) 0 5) ∧
    (resizeImg zeroResample (constImage 100 100) 0 5).width = 1 ∧
    (resizeImg zeroResample (constImage 100 100) 0 5).height = 1 := by
  refine ⟨rfl, ?_, ?_⟩
  · rw [(resizeImg_dims zeroResample (constImage 100 100) 0 5).1]
    show (resizeDims 100 100 0 5).1 = 1
    rw [resizeDims_100_100_0_5]
  · rw [(resizeImg_dims zeroResample (constImage 100 100) 0 5).2]
    show (resizeDims 100 100 0 5).2 = 1
    rw [resizeDims_100_100_0_5]

/-- Claim C7 (amended): a degenerate (zero) target dimension is not rejected;
both resize commands always succeed on a decoded image, and the output
dimensions are clamped to at least 1 in each direction. -/
theorem resize_zero_clamped (resample : Image → ℕ → ℕ → ℕ → ℕ → ℕ)
    (img : Image) (nw nh : ℕ) (hw : 0 < img.width) (hh : 0 < img.height) :
    resize_image resample (.ok img) nw nh = .ok (resizeImg resample img nw nh) ∧
    resize_image_from_data resample (.ok img) nw nh
      = .ok (resizeImg resample img nw nh) ∧
    0 < (resizeImg resample img nw nh).width ∧
    0 < (resizeImg resample img nw nh).height := by
  refine ⟨rfl, rfl, ?_, ?_⟩
  · rw [(resizeImg_dims resample img nw nh).1]
    exact (resizeDims_pos img.width img.height nw nh hw hh).1
  · rw [(resizeImg_dims resample img nw nh).2]
    exact (resizeDims_pos img.width img.height nw nh hw hh).2

/-- Claim C7 witness at the concrete degenerate input. -/
theorem resize_zero_clamped_witness :
    (0 < (constImage 100 100).width ∧ 0 < (constImage 100 100).height) ∧
    resize_image zeroResample (.ok (constImage 100 100)) 0 5
      = .ok (resizeImg zeroResample (constImage 100 100) 0 5) ∧
    0 < (resizeImg zeroResample (constImage 100 100) 0 5).width :=
  ⟨⟨by decide, by decide⟩,
    (resize_zero_clamped zeroResample (constImage 100 100) 0 5 (by decide)
      (by decide)).1,
    (resize_zero_clamped zeroResample (constImage 100 100) 0 5 (by decide)
      (by decide)).2.2.1⟩

/-! ### Save-as lemmas -/

theorem ratToU32Round_val (q : ℚ) (k : ℕ) (h0 : 0 ≤ q) (hk : ⌊q + 1/2⌋ = (k : ℤ))
    (hcap : k ≤ 2 ^ 32 - 1) : ratToU32Round q = k := by
  unfold ratToU32Round u32Max
  rw [rustRound_nonneg_eq q h0, hk, Int.toNat_natCast]
  exact min_eq_left hcap

theorem ratToU32Round_le (q : ℚ) (n : ℕ) (hq : q ≤ n) : ratToU32Round q ≤ n := by
  unfold ratToU32Round
  exact le_trans (min_le_left _ _) (toNat_rustRound_le q n hq)

theorem resizeDims_le_box (w h nw nh b c : ℕ) (hw : 0 < w) (hh : 0 < h)
    (hnw : nw ≤ b) (hnh : nh ≤ c) (hb : 1 ≤ b) (hc : 1 ≤ c)
    (hbcap : b ≤ u32Max) (hccap : c ≤ u32Max) :
    (resizeDims w h nw nh).1 ≤ b ∧ (resizeDims w h nw nh).2 ≤ c := by
  unfold resizeDims
  split
  · next heq => exact ⟨heq.1 ▸ hnw, heq.2 ▸ hnh⟩
  · exact resize_dimensions_le w h nw nh b c hw hh hnw hnh hb hc hbcap hccap

theorem max_toNat_rustRound_within_one (q : ℚ) (h0 : 0 ≤ q) :
    |((max (Int.toNat (rustRound q)) 1 : ℕ) : ℚ) - q| ≤ 1 := by
  rw [rustRound_nonneg_eq q h0]
  have hk0 : (0 : ℤ) ≤ ⌊q + 1/2⌋ := Int.le_floor.mpr (by push_cast; linarith)
  have hle : ((⌊q + 1/2⌋ : ℤ) : ℚ) ≤ q + 1/2 := Int.floor_le _
  have hgt : q + 1/2 < ((⌊q + 1/2⌋ : ℤ) : ℚ) + 1 := Int.lt_floor_add_one _
  by_cases h1 : 1 ≤ Int.toNat ⌊q + 1/2⌋
  · rw [max_eq_left h1]
    have htn : ((Int.toNat ⌊q + 1/2⌋ : ℕ) : ℚ) = ((⌊q + 1/2⌋ : ℤ) : ℚ) := by
      exact_mod_cast Int.toNat_of_nonneg hk0
    rw [htn, abs_le]
    constructor <;> linarith
  · have hkz : ⌊q + 1/2⌋ = 0 := by omega
    have hq2 : q < 1/2 := by
      rw [hkz] at hgt
      push_cast at hgt
      linarith
    rw [hkz]
    norm_num
    rw [abs_le]
    constructor <;> linarith

theorem resize_dimensions_common_scale (w h nw nh : ℕ) (hw : 0 < w) (hh : 0 < h)
    (hnwcap : nw ≤ u32Max) (hnhcap : nh ≤ u32Max) :
    ∃ s : ℚ, 0 ≤ s ∧
      |((resize_dimensions w h nw nh false).1 : ℚ) - s * w| ≤ 1 ∧
      |((resize_dimensions w h nw nh false).2 : ℚ) - s * h| ≤ 1 := by
  have hw0 : (0 : ℚ) < w := by exact_mod_cast hw
  have hh0 : (0 : ℚ) < h := by exact_mod_cast hh
  have hr0 : 0 ≤ min ((nw : ℚ)/w) ((nh : ℚ)/h) := le_min (by positivity) (by positivity)
  have h1 : (w : ℚ) * min ((nw : ℚ)/w) ((nh : ℚ)/h) ≤ nw := by
    calc (w : ℚ) * min ((nw : ℚ)/w) ((nh : ℚ)/h)
        ≤ (w : ℚ) * ((nw : ℚ)/w) := by
          apply mul_le_mul_of_nonneg_left (min_le_left _ _) (by positivity)
      _ = nw := by field_simp
  have h2 : (h : ℚ) * min ((nw : ℚ)/w) ((nh : ℚ)/h) ≤ nh := by
    calc (h : ℚ) * min ((nw : ℚ)/w) ((nh : ℚ)/h)
        ≤ (h : ℚ) * ((nh : ℚ)/h) := by
          apply mul_le_mul_of_nonneg_left (min_le_right _ _) (by positivity)
      _ = nh := by field_simp
  have hu1 : max (Int.toNat (rustRound ((w : ℚ) * min ((nw : ℚ)/w) ((nh : ℚ)/h)))) 1
      ≤ u32Max :=
    max_le (le_trans (toNat_rustRound_le _ nw h1) hnwcap) (by norm_num [u32Max])
  have hu2 : max (Int.toNat (rustRound ((h : ℚ) * min ((nw : ℚ)/w) ((nh : ℚ)/h)))) 1
      ≤ u32Max :=
    max_le (le_trans (toNat_rustRound_le _ nh h2) hnhcap) (by norm_num [u32Max])
  simp only [resize_dimensions, Bool.false_eq_true, if_false]
  rw [if_neg (not_lt.mpr hu1), if_neg (not_lt.mpr hu2)]
  refine ⟨min ((nw : ℚ)/w) ((nh : ℚ)/h), hr0, ?_, ?_⟩
  · rw [mul_comm (min ((nw : ℚ)/w) ((nh : ℚ)/h)) ((w : ℕ) : ℚ)]
    exact max_toNat_rustRound_within_one _ (mul_nonneg (by positivity) hr0)
  · rw [mul_comm (min ((nw : ℚ)/w) ((nh : ℚ)/h)) ((h : ℕ) : ℚ)]
    exact max_toNat_rustRound_within_one _ (mul_nonneg (by positivity) hr0)

theorem resizeDims_common_scale (w h nw nh : ℕ) (hw : 0 < w) (hh : 0 < h)
    (hnwcap : nw ≤ u32Max) (hnhcap : nh ≤ u32Max) :
    ∃ s : ℚ, 0 ≤ s ∧
      |((resizeDims w h nw nh).1 : ℚ) - s * w| ≤ 1 ∧
      |((resizeDims w h nw nh).2 : ℚ) - s * h| ≤ 1 := by
  unfold resizeDims
  split
  · refine ⟨1, by norm_num, ?_, ?_⟩ <;> simp
  · exact resize_dimensions_common_scale w h nw nh hw hh hnwcap hnhcap

theorem save_as_non_ico_passthrough (resample : Image → ℕ → ℕ → ℕ → ℕ → ℕ)
    (img : Image) (ext : String) (hne : lowerStr ext ≠ "ico") :
    save_as_processed_img resample img ext = img := by
  unfold save_as_processed_img
  rw [if_neg hne]

theorem save_as_small_passthrough (resample : Image → ℕ → ℕ → ℕ → ℕ → ℕ)
    (img : Image) (ext : String) (h1 : img.width ≤ 256) (h2 : img.height ≤ 256) :
    save_as_processed_img resample img ext = img := by
  unfold save_as_processed_img
  split
  · rw [if_neg (by omega : ¬(img.width > 256 ∨ img.height > 256))]
  · rfl

theorem save_as_ico_dims_le (resample : Image → ℕ → ℕ → ℕ → ℕ → ℕ)
    (img : Image) (hw : 0 < img.width) (hh : 0 < img.height) :
    (save_as_processed_img resample img "ico").width ≤ 256 ∧
    (save_as_processed_img resample img "ico").height ≤ 256 := by
  obtain ⟨w, h, p⟩ := img
  replace hw : 0 < w := hw
  replace hh : 0 < h := hh
  have hico : lowerStr "ico" = "ico" := rfl
  by_cases hbig : w > 256 ∨ h > 256
  · have hw0 : (0 : ℚ) < (w : ℚ) := by exact_mod_cast hw
    have hh0 : (0 : ℚ) < (h : ℚ) := by exact_mod_cast hh
    simp only [save_as_processed_img]
    rw [if_pos hico, if_pos hbig]
    rcases lt_or_le h w with hwh | hwh
    · have harg : (w : ℚ) * (256 / (w : ℚ)) = 256 := by field_simp
      have e1 : ratToU32Round ((w : ℚ) * (256 / (w : ℚ))) = 256 :=
        ratToU32Round_val _ 256 (by positivity) (by rw [harg]; norm_num)
          (by norm_num)
      have e2 : ratToU32Round ((h : ℚ) * (256 / (w : ℚ))) ≤ 256 := by
        apply ratToU32Round_le
        push_cast
        calc (h : ℚ) * (256 / w) ≤ (w : ℚ) * (256 / w) := by
              apply mul_le_mul_of_nonneg_right _ (by positivity)
              exact_mod_cast hwh.le
          _ = 256 := harg
      rw [if_pos hwh, e1]
      rw [(resizeImg_dims resample ⟨w, h, p⟩ 256
        (ratToU32Round ((h : ℚ) * (256 / (w : ℚ))))).1]
      rw [(resizeImg_dims resample ⟨w, h, p⟩ 256
        (ratToU32Round ((h : ℚ) * (256 / (w : ℚ))))).2]
      exact resizeDims_le_box w h 256 _ 256 256 hw hh le_rfl e2 (by norm_num)
        (by norm_num) (by norm_num [u32Max]) (by norm_num [u32Max])
    · have harg : (h : ℚ) * (256 / (h : ℚ)) = 256 := by field_simp
      have e1 : ratToU32Round ((h : ℚ) * (256 / (h : ℚ))) = 256 :=
        ratToU32Round_val _ 256 (by positivity) (by rw [harg]; norm_num)
          (by norm_num)
      have e2 : ratToU32Round ((w : ℚ) * (256 / (h : ℚ))) ≤ 256 := by
        apply ratToU32Round_le
        push_cast
        calc (w : ℚ) * (256 / h) ≤ (h : ℚ) * (256 / h) := by
              apply mul_le_mul_of_nonneg_right _ (by positivity)
              exact_mod_cast hwh
          _ = 256 := harg
      rw [if_neg (not_lt.mpr hwh), e1]
      rw [(resizeImg_dims resample ⟨w, h, p⟩
        (ratToU32Round ((w : ℚ) * (256 / (h : ℚ)))) 256).1]
      rw [(resizeImg_dims resample ⟨w, h, p⟩
        (ratToU32Round ((w : ℚ) * (256 / (h : ℚ)))) 256).2]
      exact resizeDims_le_box w h _ 256 256 256 hw hh e2 le_rfl (by norm_num)
        (by norm_num) (by norm_num [u32Max]) (by norm_num [u32Max])
  · push_neg at hbig
    rw [save_as_small_passthrough resample ⟨w, h, p⟩ "ico" hbig.1 hbig.2]
    exact ⟨hbig.1, hbig.2⟩

theorem save_as_ico_common_scale (resample : Image → ℕ → ℕ → ℕ → ℕ → ℕ)
    (img : Image) (hw : 0 < img.width) (hh : 0 < img.height) :
    ∃ s : ℚ, 0 ≤ s ∧
      |((save_as_processed_img resample img "ico").width : ℚ) - s * img.width| ≤ 1 ∧
      |((save_as_processed_img resample img "ico").height : ℚ) - s * img.height| ≤ 1 := by
  obtain ⟨w, h, p⟩ := img
  replace hw : 0 < w := hw
  replace hh : 0 < h := hh
  have hico : lowerStr "ico" = "ico" := rfl
  by_cases hbig : w > 256 ∨ h > 256
  · have hw0 : (0 : ℚ) < (w : ℚ) := by exact_mod_cast hw
    have hh0 : (0 : ℚ) < (h : ℚ) := by exact_mod_cast hh
    simp only [save_as_processed_img]
    rw [if_pos hico, if_pos hbig]
    rcases lt_or_le h w with hwh | hwh
    · have harg : (w : ℚ) * (256 / (w : ℚ)) = 256 := by field_simp
      have e1 : ratToU32Round ((w : ℚ) * (256 / (w : ℚ))) = 256 :=
        ratToU32Round_val _ 256 (by positivity) (by rw [harg]; norm_num)
          (by norm_num)
      have e2 : ratToU32Round ((h : ℚ) * (256 / (w : ℚ))) ≤ 256 := by
        apply ratToU32Round_le
        push_cast
        calc (h : ℚ) * (256 / w) ≤ (w : ℚ) * (256 / w) := by
              apply mul_le_mul_of_nonneg_right _ (by positivity)
              exact_mod_cast hwh.le
          _ = 256 := harg
      rw [if_pos hwh, e1]
      rw [(resizeImg_dims resample ⟨w, h, p⟩ 256
        (ratToU32Round ((h : ℚ) * (256 / (w : ℚ))))).1]
      rw [(resizeImg_dims resample ⟨w, h, p⟩ 256
        (ratToU32Round ((h : ℚ) * (256 / (w : ℚ))))).2]
      exact resizeDims_common_scale w h 256 _ hw hh (by norm_num [u32Max])
        (le_trans e2 (by norm_num [u32Max]))
    · have harg : (h : ℚ) * (256 / (h : ℚ)) = 256 := by field_simp
      have e1 : ratToU32Round ((h : ℚ) * (256 / (h : ℚ))) = 256 :=
        ratToU32Round_val _ 256 (by positivity) (by rw [harg]; norm_num)
          (by norm_num)
      have e2 : ratToU32Round ((w : ℚ) * (256 / (h : ℚ))) ≤ 256 := by
        apply ratToU32Round_le
        push_cast
        calc (w : ℚ) * (256 / h) ≤ (h : ℚ) * (256 / h) := by
              apply mul_le_mul_of_nonneg_right _ (by positivity)
              exact_mod_cast hwh
          _ = 256 := harg
      rw [if_neg (not_lt.mpr hwh), e1]
      rw [(resizeImg_dims resample ⟨w, h, p⟩
        (ratToU32Round ((w : ℚ) * (256 / (h : ℚ)))) 256).1]
      rw [(resizeImg_dims resample ⟨w, h, p⟩
        (ratToU32Round ((w : ℚ) * (256 / (h : ℚ)))) 256).2]
      exact resizeDims_common_scale w h _ 256 hw hh
        (le_trans e2 (by norm_num [u32Max])) (by norm_num [u32Max])
  · push_neg at hbig
    rw [save_as_small_passthrough resample ⟨w, h, p⟩ "ico" hbig.1 hbig.2]
    refine ⟨1, by norm_num, ?_, ?_⟩ <;> simp

theorem resizeDims_2560_1014_256_101 : resizeDims 2560 1014 256 101 = (255, 101) := by
  simp only [resizeDims, resize_dimensions]
  norm_num [min_def, max_def, rustRound, u32Max]
  omega

theorem saveAs_ico_2560_1014 :
    (save_as_processed_img zeroResample (constImage 2560 1014) "ico").width = 255 ∧
    (save_as_processed_img zeroResample (constImage 2560 1014) "ico").height = 101 := by
  have hico : lowerStr "ico" = "ico" := rfl
  simp only [save_as_processed_img, constImage]
  rw [if_pos hico]
  rw [if_pos (by norm_num : (2560 : ℕ) > 256 ∨ (1014 : ℕ) > 256)]
  rw [if_pos (by norm_num : (2560 : ℕ) > 1014)]
  have e1 : ratToU32Round (((2560 : ℕ) : ℚ) * (256 / ((2560 : ℕ) : ℚ))) = 256 :=
    ratToU32Round_val _ 256 (by positivity) (by norm_num) (by norm_num)
  have e2 : ratToU32Round (((1014 : ℕ) : ℚ) * (256 / ((2560 : ℕ) : ℚ))) = 101 :=
    ratToU32Round_val _ 101 (by positivity) (by norm_num) (by norm_num)
  rw [e1, e2]
  rw [(resizeImg_dims zeroResample ⟨2560, 1014, fun _ _ => 0⟩ 256 101).1]
  rw [(resizeImg_dims zeroResample ⟨2560, 1014, fun _ _ => 0⟩ 256 101).2]
  show (resizeDims 2560 1014 256 101).1 = 255 ∧ (resizeDims 2560 1014 256 101).2 = 101
  rw [resizeDims_2560_1014_256_101]
  exact ⟨rfl, rfl⟩

theorem saveAs_ico_4096_2048 :
    (save_as_processed_img zeroResample (constImage 4096 2048) "ico").width = 256 ∧
    (save_as_processed_img zeroResample (constImage 4096 2048) "ico").height = 128 := by
  have hico : lowerStr "ico" = "ico" := rfl
  simp only [save_as_processed_img, constImage]
  rw [if_pos hico]
  rw [if_pos (by norm_num : (4096 : ℕ) > 256 ∨ (2048 : ℕ) > 256)]
  rw [if_pos (by norm_num : (4096 : ℕ) > 2048)]
  have e1 : ratToU32Round (((4096 : ℕ) : ℚ) * (256 / ((4096 : ℕ) : ℚ))) = 256 :=
    ratToU32Round_val _ 256 (by positivity) (by norm_num) (by norm_num)
  have e2 : ratToU32Round (((2048 : ℕ) : ℚ) * (256 / ((4096 : ℕ) : ℚ))) = 128 :=
    ratToU32Round_val _ 128 (by positivity) (by norm_num) (by norm_num)
  rw [e1, e2]
  rw [(resizeImg_dims zeroResample ⟨4096, 2048, fun _ _ => 0⟩ 256 128).1]
  rw [(resizeImg_dims zeroResample ⟨4096, 2048, fun _ _ => 0⟩ 256 128).2]
  show (resizeDims 4096 2048 256 128).1 = 256 ∧ (resizeDims 4096 2048 256 128).2 = 128
  rw [resizeDims_exact 4096 2048 256 128 (by norm_num) (by norm_num) (by norm_num)
    (by norm_num) (by norm_num [u32Max]) (by norm_num [u32Max]) (by norm_num)]
  exact ⟨rfl, rfl⟩

/-! ### Claim theorems: save-as -/

/-- Claim C5 counterexample: a 2560x1014 source saved through the icon path is
resized to 255x101 — the maximum side does *not* become exactly 256: the
double rounding (save_as's own rounding followed by `resize`'s aspect-fit
rounding) loses one pixel. -/
theorem ico_max_side_not_exact :
    (constImage 2560 1014).width > 256 ∧
    (save_as_processed_img zeroResample (constImage 2560 1014) "ico").width = 255 ∧
    (save_as_processed_img zeroResample (constImage 2560 1014) "ico").height = 101 ∧
    max (save_as_processed_img zeroResample (constImage 2560 1014) "ico").width
      (save_as_processed_img zeroResample (constImage 2560 1014) "ico").height
      ≠ 256 := by
  obtain ⟨h1, h2⟩ := saveAs_ico_2560_1014
  refine ⟨by decide, h1, h2, ?_⟩
  rw [h1, h2]
  omega

/-- Claim C5 (amended): an image already within the 256-pixel cap passes the
icon save unchanged; an oversized image is resized so that its maximum side
becomes *at most* 256 (not always exactly 256); the aspect ratio is preserved
within the claimed 1-pixel rounding tolerance: both output dimensions lie
within 1 pixel of `s * width` and `s * height` for one common scale factor
`s ≥ 0`; and the concrete 4096x2048 source comes out exactly 256x128. -/
theorem save_as_ico_bound :
    (∀ (resample : Image → ℕ → ℕ → ℕ → ℕ → ℕ) (img : Image),
      0 < img.width → 0 < img.height →
      (img.width ≤ 256 → img.height ≤ 256 →
        save_as_processed_img resample img "ico" = img) ∧
      ((save_as_processed_img resample img "ico").width ≤ 256 ∧
        (save_as_processed_img resample img "ico").height ≤ 256) ∧
      (∃ s : ℚ, 0 ≤ s ∧
        |((save_as_processed_img resample img "ico").width : ℚ)
          - s * img.width| ≤ 1 ∧
        |((save_as_processed_img resample img "ico").height : ℚ)
          - s * img.height| ≤ 1)) ∧
    (save_as_processed_img zeroResample (constImage 4096 2048) "ico").width = 256 ∧
    (save_as_processed_img zeroResample (constImage 4096 2048) "ico").height = 128 := by
  refine ⟨fun resample img hw hh => ?_, saveAs_ico_4096_2048⟩
  exact ⟨fun h1 h2 => save_as_small_passthrough resample img "ico" h1 h2,
    save_as_ico_dims_le resample img hw hh,
    save_as_ico_common_scale resample img hw hh⟩

/-- Claim C5 witness at a concrete oversized input. -/
theorem save_as_ico_bound_witness :
    (0 < (constImage 2560 1014).width ∧ 0 < (constImage 2560 1014).height) ∧
    ((save_as_processed_img zeroResample (constImage 2560 1014) "ico").width ≤ 256 ∧
      (save_as_processed_img zeroResample (constImage 2560 1014) "ico").height ≤ 256) ∧
    (∃ s : ℚ, 0 ≤ s ∧
      |((save_as_processed_img zeroResample (constImage 2560 1014) "ico").width : ℚ)
        - s * (constImage 2560 1014).width| ≤ 1 ∧
      |((save_as_processed_img zeroResample (constImage 2560 1014) "ico").height : ℚ)
        - s * (constImage 2560 1014).height| ≤ 1) :=
  ⟨⟨by decide, by decide⟩,
    (save_as_ico_bound.1 zeroResample (constImage 2560 1014) (by decide)
      (by decide)).2.1,
    (save_as_ico_bound.1 zeroResample (constImage 2560 1014) (by decide)
      (by decide)).2.2⟩

/-- Claim C9: whenever the destination extension (case-insensitively) is not
the icon format, or the image already satisfies the icon constraint, `save_as`
hands the decoded image to the encoder unchanged — no resize is applied. -/
theorem save_as_passthrough (resample : Image → ℕ → ℕ → ℕ → ℕ → ℕ)
    (img : Image) (ext : String) :
    (lowerStr ext ≠ "ico" → save_as_processed_img resample img ext = img) ∧
    (img.width ≤ 256 → img.height ≤ 256 →
      save_as_processed_img resample img ext = img) :=
  ⟨save_as_non_ico_passthrough resample img ext,
    fun h1 h2 => save_as_small_passthrough resample img ext h1 h2⟩

/-- Claim C9 witness: a non-icon save of a large image and an icon save of a
small image both pass the raster through unchanged. -/
theorem save_as_passthrough_witness :
    (lowerStr "png" ≠ "ico") ∧
    save_as_processed_img zeroResample (constImage 3000 4000) "png"
      = constImage 3000 4000 ∧
    ((constImage 10 20).width ≤ 256 ∧ (constImage 10 20).height ≤ 256) ∧
    save_as_processed_img zeroResample (constImage 10 20) "ICO"
      = constImage 10 20 :=
  ⟨by decide,
    (save_as_passthrough zeroResample (constImage 3000 4000) "png").1 (by decide),
    ⟨by decide, by decide⟩,
    (save_as_passthrough zeroResample (constImage 10 20) "ICO").2 (by decide)
      (by decide)⟩

/-! ### Claim theorems: directory enumeration -/

/-- Claim C6 counterexample: a directory with one decodable image and one bad
file whose `fs::metadata` call fails does not return the one good entry — the
whole enumeration aborts with an error, because the metadata failure is
propagated with `?` (lib.rs line 45) instead of being swallowed. -/
theorem list_images_metadata_failure :
    goodEntry.decoded.isSome = true ∧
    metaFailEntry.decoded = none ∧
    list_images [goodEntry, metaFailEntry] = .error "Failed to get metadata" :=
  ⟨rfl, rfl, rfl⟩

/-- Claim C6 (amended): open/decode failures are swallowed and the file is
omitted, so the enumeration returns exactly the decodable considered entries —
provided every considered file's metadata read succeeds; a metadata failure is
not swallowed (see the counterexample).  Concretely, one decodable image, one
corrupt image and one text file yield exactly one entry. -/
theorem list_images_skips_decode_failures :
    (∀ entries : List DirEntry,
      (∀ e ∈ entries, consideredEntry e = true → e.metadata.isSome = true) →
      list_images entries = .ok (entries.filterMap entryInfo)) ∧
    list_images [goodEntry, corruptEntry, textEntry]
      = .ok [⟨"/imgs/a.png", "a.png", 3, 4, 100⟩] := by
  constructor
  · intro entries hmeta
    induction entries with
    | nil => rfl
    | cons e rest ih =>
      have hrest : ∀ e' ∈ rest, consideredEntry e' = true → e'.metadata.isSome = true :=
        fun e' he' => hmeta e' (List.mem_cons_of_mem e he')
      have ihr := ih hrest
      have hme := hmeta e (List.mem_cons_self e rest)
      obtain ⟨nm, pth, fl, ex, md, dc⟩ := e
      cases fl with
      | false => simpa [list_images, entryInfo, consideredEntry,
          List.filterMap_cons] using ihr
      | true =>
        cases ex with
        | none => simpa [list_images, entryInfo, consideredEntry,
            List.filterMap_cons] using ihr
        | some x =>
          by_cases hsup : lowerStr x ∈ supportedExts
          · have hcons : consideredEntry ⟨nm, pth, true, some x, md, dc⟩ = true := by
              simp [consideredEntry, hsup]
            cases md with
            | none => exact absurd (hme hcons) (by simp)
            | some size =>
              cases dc with
              | none => simpa [list_images, entryInfo, consideredEntry, hsup,
                  List.filterMap_cons] using ihr
              | some wh =>
                simp [list_images, entryInfo, consideredEntry, hsup,
                  List.filterMap_cons, ihr]
          · simpa [list_images, entryInfo, consideredEntry, hsup,
              List.filterMap_cons] using ihr
  · rfl

/-- Claim C6 witness at a concrete directory listing. -/
theorem list_images_skips_decode_failures_witness :
    (∀ e ∈ [goodEntry, corruptEntry, textEntry],
      consideredEntry e = true → e.metadata.isSome = true) ∧
    list_images [goodEntry, corruptEntry, textEntry]
      = .ok ([goodEntry, corruptEntry, textEntry].filterMap entryInfo) :=
  ⟨by decide, list_images_skips_decode_failures.1 _ (by decide)⟩

end ImageEditor
